import Mathlib

/-!
Verification of the semantic-retrieval and memory-consolidation engine of the
Ollama-Workbench-2 backend (packages/api/src/routers/knowledge.py and
packages/api/src/routers/memory.py).

The Python code is shallowly embedded:
  * floats become exact rationals (`ℚ`); the cosine-similarity value, whose
    floating-point square roots have no exact rational counterpart, is
    abstracted as an opaque scoring function `sim` wherever only the ranking
    structure matters, while its denominator (`norm(a) * norm(b)`, zero iff
    the squared norms are zero) is modelled exactly for the zero-vector
    analysis;
  * `datetime` values become integers ordered chronologically, with
    `timedelta(hours=h)` subtraction becoming integer subtraction;
  * Python dicts keyed by id become lists of entries (dict values in
    insertion order); deletion by key becomes filtering by the candidate
    predicate, which coincides with the code for id-unique stores;
  * `uuid.uuid4()` draws become explicit parameters (a fresh-name supply);
  * the Ollama / Qdrant HTTP collaborators become parameters describing
    their outcome (an embedding vector, an HTTP failure, a summarizer
    function, a remote result list);
  * Python truthiness on `Optional[str]`, `Optional[list]`, `Optional[int]`
    is modelled exactly: `None`, `""`, `[]` and `0` are falsy;
  * Python's stable `list.sort(key=k, reverse=True)` is modelled by
    `List.insertionSort` with the relation `key y ≤ key x`, which is the
    same stable descending sort.
-/

/-! ### Python string primitives (modelled on `List Char`, so that the kernel
can evaluate them; `String.toLower`/`split`/`strip` use byte positions that
do not reduce) -/

/-- Python `str.upper()`, character by character. -/
def strUpper (s : String) : String := String.mk (s.data.map Char.toUpper)

/-- Python `str.lower()`, character by character. -/
def strLower (s : String) : String := String.mk (s.data.map Char.toLower)

/-- Accumulator loop for Python `str.split()`: split on whitespace runs,
dropping empty pieces. -/
def wordsAux : List Char → List Char → List String
  | [], acc => if acc.isEmpty then [] else [String.mk acc.reverse]
  | c :: cs, acc =>
    if c.isWhitespace then
      if acc.isEmpty then wordsAux cs [] else String.mk acc.reverse :: wordsAux cs []
    else wordsAux cs (c :: acc)

/-- Python `str.split()` with no argument. -/
def pySplitWords (s : String) : List String := wordsAux s.data []

/-- Python `str.strip()`. -/
def strTrim (s : String) : String :=
  String.mk (((s.data.dropWhile Char.isWhitespace).reverse.dropWhile Char.isWhitespace).reverse)

/-- Bool test that `a` is an initial segment of `b`. -/
def listPrefixEq : List Char → List Char → Bool
  | [], _ => true
  | _ :: _, [] => false
  | a :: as, b :: bs => a == b && listPrefixEq as bs

/-- Bool substring test on character lists. -/
def listSubstr (needle : List Char) : List Char → Bool
  | [] => needle.isEmpty
  | c :: t => listPrefixEq needle (c :: t) || listSubstr needle t

/-- Python `needle in hay` on strings (substring containment). -/
def strContainsSub (needle hay : String) : Bool := listSubstr needle.data hay.data

/-- Python slice index resolution: a negative index counts from the end,
and indices clamp to `[0, len]`. -/
def pyIdx (len : Nat) (i : Int) : Nat :=
  if i < 0 then ((len : Int) + i).toNat else min i.toNat len

/-- Python `s[start:stop]`. -/
def pySlice (s : String) (start stop : Int) : String :=
  String.mk ((s.data.take (pyIdx s.data.length stop)).drop (pyIdx s.data.length start))

/-! ### knowledge.py — chunking (`ChunkingStrategy`, `chunk_fixed`) -/

/-- Validation of `ChunkingStrategy`: pydantic accepts
`100 ≤ chunk_size ≤ 4096` and `0 ≤ chunk_overlap ≤ 256`
(`chunk_size: ge=100, le=4096`; `chunk_overlap: ge=0, le=256`).
There is no constraint relating overlap to size. -/
def chunkParamsValid (size overlap : Int) : Bool :=
  100 ≤ size && size ≤ 4096 && 0 ≤ overlap && overlap ≤ 256

/-- Loop body of `chunk_fixed`, with explicit fuel: the Python `while start <
len(text)` loop advances `start` by `size - overlap` each iteration (via
`end = start + size; start = end - overlap`); `none` means the fuel ran out,
i.e. the loop was still running after `fuel` iterations. -/
def chunkFixedGo (size overlap : Int) (text : String) :
    Nat → Int → List String → Option (List String)
  | 0, _, _ => none
  | fuel + 1, start, acc =>
    if start < (text.data.length : Int) then
      let stop := start + size
      let c := strTrim (pySlice text start stop)
      chunkFixedGo size overlap text fuel (stop - overlap) (if c = "" then acc else acc ++ [c])
    else some acc

/-- Function `chunk_fixed(text, size, overlap)` run for at most `fuel` iterations. -/
def chunkFixed (size overlap : Int) (text : String) (fuel : Nat) : Option (List String) :=
  chunkFixedGo size overlap text fuel 0 []

/-! ### knowledge.py — document ids and chunk ids (`upload_document`) -/

/-- Document id minted by `upload_document`: `f"doc_{uuid.uuid4().hex[:12]}"`,
with the uuid draw made an explicit parameter. -/
def docIdOf (uuidHex : String) : String := "doc_" ++ uuidHex

/-- Chunk id assigned by `upload_document`: `f"chunk_{doc_id}_{i}"` for the
chunk at ordinal `i`. -/
def chunkIdOf (docId : String) (i : Nat) : String :=
  "chunk_" ++ docId ++ "_" ++ toString i

/-- The chunk ids one `upload_document` call assigns to its chunk list,
given the uuid it drew for the document id. -/
def uploadAssignChunkIds (uuidHex : String) (chunks : List String) : List String :=
  (List.range chunks.length).map (chunkIdOf (docIdOf uuidHex))

/-! ### knowledge.py — stored chunks, search results, cosine ingredients -/

/-- An entry of the in-memory `_chunks` dict (`chunk_id -> {content,
document_id, collection_id, embedding, metadata}`); metadata is modelled as
a string-keyed association list. -/
structure StoredChunk where
  chunk_id : String
  content : String
  document_id : String
  collection_id : String
  embedding : Option (List ℚ)
  metadata : List (String × String)
deriving DecidableEq

/-- A `SearchResult` (knowledge.py): chunk id, document id, content, score,
metadata. -/
structure SearchResult where
  chunk_id : String
  document_id : String
  content : String
  score : ℚ
  metadata : List (String × String)
deriving DecidableEq

/-- Dot product `np.dot(a, b)` on rational vectors. -/
def dotQ (a b : List ℚ) : ℚ := (List.zipWith (fun x y => x * y) a b).sum

/-- The square of `np.linalg.norm(a)`; the cosine denominator
`norm(a) * norm(b)` is zero exactly when `normSq a = 0` or `normSq b = 0`. -/
def normSq (a : List ℚ) : ℚ := dotQ a a

/-- Python truthiness of the stored optional embedding: the only guard the
source places before cosine scoring (`if memory.embedding:` in memory.py,
`if not chunk_data.get("embedding"): continue` in knowledge.py). It rules
out `None` and `[]`, not zero vectors. -/
def embGiven : Option (List ℚ) → Bool
  | none => false
  | some e => !e.isEmpty

/-- The unsorted result list the fallback scan of `semantic_search`
accumulates: skip chunks with falsy embedding, score each with the cosine
similarity to the query (abstracted as `sim`), keep scores `≥
score_threshold`. -/
def fallbackResults (sim : List ℚ → ℚ) (threshold : ℚ) (chunks : List StoredChunk) :
    List SearchResult :=
  chunks.filterMap fun c =>
    match c.embedding with
    | none => none
    | some e =>
      if e.isEmpty then none
      else
        let score := sim e
        if threshold ≤ score then
          some { chunk_id := c.chunk_id, document_id := c.document_id,
                 content := c.content, score := score, metadata := c.metadata }
        else none

/-- The in-process fallback scan of `semantic_search` (knowledge.py, the
no-collection branch): accumulate `fallbackResults`, sort descending by
score (stable), truncate to `limit`. -/
def fallbackScan (sim : List ℚ → ℚ) (threshold : ℚ) (limit : Nat)
    (chunks : List StoredChunk) : List SearchResult :=
  ((fallbackResults sim threshold chunks).insertionSort (fun x y => y.score ≤ x.score)).take
    limit

/-- Outcome of knowledge.py's `generate_embedding` for the query: either the
first returned vector (possibly `[]`), or an `httpx.HTTPError`, on which the
function raises `HTTPException(503)`. -/
inductive EmbedOutcome where
  | ok (v : List ℚ)
  | httpError
deriving DecidableEq

/-- Endpoint `semantic_search` (knowledge.py): `generate_embedding` raises
`HTTPException(503)` on an HTTP error (modelled as `Except.error 503`); an
empty query vector returns `[]`; with a target collection the remote Qdrant
result is returned as-is; otherwise the in-process fallback scan runs. -/
def semanticSearch (emb : EmbedOutcome) (sim : List ℚ → List ℚ → ℚ)
    (collection : Option String) (qdrantResults : List SearchResult)
    (threshold : ℚ) (limit : Nat) (chunks : List StoredChunk) :
    Except Nat (List SearchResult) :=
  match emb with
  | .httpError => .error 503
  | .ok v =>
    if v.isEmpty then .ok []
    else
      match collection with
      | some _ => .ok qdrantResults
      | none => .ok (fallbackScan (sim v) threshold limit chunks)

/-! ### knowledge.py — RAG context assembly (`get_rag_context`) -/

/-- Formatting of one accepted result: with `include_sources`, a
`[Source: <filename>]` header line (filename from metadata, default
"unknown") above the content. -/
def ragFmt (includeSources : Bool) (r : SearchResult) : String :=
  if includeSources then
    "[Source: " ++ (r.metadata.lookup "filename").getD "unknown" ++ "]\n" ++ r.content
  else r.content

/-- The accumulation loop of `get_rag_context`: walk results in ranked
order, break before any result whose content would push the running
character + content count past `max_chars`; returns the accepted formatted
parts and the final `total_chars`. Only `len(result.content)` is counted —
not the source header, not the join separators. -/
def ragAssembleGo (includeSources : Bool) (maxChars : Nat) :
    List SearchResult → Nat → List String × Nat
  | [], total => ([], total)
  | r :: rest, total =>
    if maxChars < total + r.content.length then ([], total)
    else
      let prev := ragAssembleGo includeSources maxChars rest (total + r.content.length)
      (ragFmt includeSources r :: prev.1, prev.2)

/-- The `context_text` field of the returned `RAGContext`:
accepted parts joined by `"\n\n---\n\n"`, with `max_chars = max_tokens * 4`. -/
def ragContextText (includeSources : Bool) (maxTokens : Nat)
    (results : List SearchResult) : String :=
  String.intercalate "\n\n---\n\n" (ragAssembleGo includeSources (maxTokens * 4) results 0).1

/-! ### memory.py — data model -/

/-- A `MemoryEntry`; metadata is a string-keyed association list; the
`importance` float lives in `[0,1]`; the ISO timestamp string is modelled
as an integer ordered chronologically. -/
structure MemoryEntry where
  id : String
  type : String
  content : String
  summary : Option String
  importance : ℚ
  timestamp : Int
  session_id : Option String
  agent_id : Option String
  metadata : List (String × String)
  embedding : Option (List ℚ)
deriving DecidableEq

/-- A `Session` record. -/
structure Session where
  id : String
  agent_id : Option String
  started_at : Int
  last_active_at : Int
  message_count : Nat
  summary : Option String
deriving DecidableEq

/-- The module's two stores, `_memories` and `_sessions`, as lists in dict
insertion order. -/
structure MemState where
  memories : List MemoryEntry
  sessions : List Session
deriving DecidableEq

/-- A `MemorySearchRequest`. -/
structure MemorySearchRequest where
  query : String
  types : Option (List String)
  session_id : Option String
  agent_id : Option String
  limit : Nat
  min_importance : ℚ
  time_range_hours : Option Int
deriving DecidableEq

/-- A `MemoryStoreRequest`. -/
structure MemoryStoreRequest where
  content : String
  type : String
  importance : ℚ
  session_id : Option String
  agent_id : Option String
  metadata : List (String × String)
  auto_summarize : Bool
deriving DecidableEq

/-- A `ConsolidationRequest` (`max_age_hours ≥ 1`,
`0 ≤ importance_threshold ≤ 1`). -/
structure ConsolidationRequest where
  session_id : Option String
  max_age_hours : Int
  importance_threshold : ℚ
deriving DecidableEq

/-! ### memory.py — search filters -/

/-- An optional-string request filter as the source applies it:
`if request.x and candidate != request.x: continue`. A `None` or `""`
request value is falsy and filters nothing. -/
def optStrGiven (requested : Option String) (v : Option String) : Bool :=
  match requested with
  | none => true
  | some s => s == "" || v == some s

/-- The `types` filter: `if request.types and memory.type not in
request.types: continue`; `None` and `[]` are falsy and filter nothing. -/
def typesOk (ts : Option (List String)) (t : String) : Bool :=
  match ts with
  | none => true
  | some l => l.isEmpty || l.contains t

/-- The time-window filter: `if request.time_range_hours:` (0 and `None`
falsy) keep entries with `timestamp ≥ now - hours`. -/
def timeOk (hours : Option Int) (now ts : Int) : Bool :=
  match hours with
  | none => true
  | some h => h == 0 || decide (now - h ≤ ts)

/-- The candidate filter of the semantic branch of `search_memories`:
types, session, agent, `importance ≥ min_importance`, time window. -/
def memMatchesFilters (req : MemorySearchRequest) (now : Int) (m : MemoryEntry) : Bool :=
  typesOk req.types m.type && optStrGiven req.session_id m.session_id &&
    optStrGiven req.agent_id m.agent_id &&
    decide (req.min_importance ≤ m.importance) &&
    timeOk req.time_range_hours now m.timestamp

/-- The candidate filter of `keyword_search`: the same four filters, with no
time-window clause (the source's fallback loop has none). -/
def kwFilterOk (req : MemorySearchRequest) (m : MemoryEntry) : Bool :=
  typesOk req.types m.type && optStrGiven req.session_id m.session_id &&
    optStrGiven req.agent_id m.agent_id &&
    decide (req.min_importance ≤ m.importance)

/-! ### memory.py — keyword and semantic search -/

/-- Count `sum(1 for kw in keywords if kw in content_lower)`. -/
def countMatches (keywords : List String) (contentLower : String) : Nat :=
  (keywords.filter (fun kw => strContainsSub kw contentLower)).length

/-- The ranking key of `keyword_search`: `matches * importance`. -/
def kwKey (keywords : List String) (m : MemoryEntry) : ℚ :=
  (countMatches keywords (strLower m.content) : ℚ) * m.importance

/-- Function `keyword_search` (memory.py), first phase: lowercase-split the query,
filter candidates, count substring matches against lowercased content, and
drop zero-match candidates. -/
def kwPairs (req : MemorySearchRequest) (mems : List MemoryEntry) :
    List (MemoryEntry × Nat) :=
  let keywords := pySplitWords (strLower req.query)
  mems.filterMap fun m =>
    if kwFilterOk req m then
      let n := countMatches keywords (strLower m.content)
      if 0 < n then some (m, n) else none
    else none

/-- Function `keyword_search`, continued: sort the match-counted candidates
descending by `matches * importance` (stable), truncate to `limit`, return
the entries. -/
def keywordSearch (req : MemorySearchRequest) (mems : List MemoryEntry) : List MemoryEntry :=
  let sorted := (kwPairs req mems).insertionSort
    (fun x y => (y.2 : ℚ) * y.1.importance ≤ (x.2 : ℚ) * x.1.importance)
  (sorted.take req.limit).map Prod.fst

/-- The blended ranking key of the semantic branch:
`similarity * (0.7 + 0.3 * importance)`. -/
def blendScore (sim : List ℚ → ℚ) (m : MemoryEntry) : ℚ :=
  sim (m.embedding.getD []) * (7 / 10 + 3 / 10 * m.importance)

/-- The semantic branch of `search_memories`, first phase: filter
candidates, keep only those with a truthy embedding, and score each with
the cosine similarity to the query (abstracted as `sim`). -/
def semanticPairs (sim : List ℚ → ℚ) (req : MemorySearchRequest) (now : Int)
    (mems : List MemoryEntry) : List (MemoryEntry × ℚ) :=
  mems.filterMap fun m =>
    if memMatchesFilters req now m then
      match m.embedding with
      | none => none
      | some e => if e.isEmpty then none else some (m, sim e)
    else none

/-- The semantic branch, continued: sort the scored candidates descending
by the blended key (stable), truncate to `limit`, return the entries. -/
def semanticRank (sim : List ℚ → ℚ) (req : MemorySearchRequest) (now : Int)
    (mems : List MemoryEntry) : List MemoryEntry :=
  let sorted := (semanticPairs sim req now mems).insertionSort
    (fun (x y : MemoryEntry × ℚ) =>
      y.2 * (7 / 10 + 3 / 10 * y.1.importance) ≤ x.2 * (7 / 10 + 3 / 10 * x.1.importance))
  (sorted.take req.limit).map Prod.fst

/-- Endpoint `search_memories` (memory.py): an empty query embedding (memory.py's
`generate_embedding` returns `[]` on any HTTP failure) falls back to
`keyword_search`; otherwise the semantic ranking runs. -/
def searchMemories (sim : List ℚ → ℚ) (req : MemorySearchRequest) (now : Int)
    (queryEmbedding : List ℚ) (mems : List MemoryEntry) : List MemoryEntry :=
  if queryEmbedding.isEmpty then keywordSearch req mems
  else semanticRank sim req now mems

/-! ### memory.py — store_memory -/

/-- Endpoint `store_memory`: build the entry (embedding `None` when the provider
returned `[]`; summary only when `auto_summarize` and content over 500
characters), append it to `_memories`, and update the session only when
`request.session_id` is truthy and present in `_sessions`
(`message_count += 1`, `last_active_at = now`). Returns the new state and
the created entry. The endpoint performs no session existence check and
raises no error for an unknown session id. -/
def storeMemory (embedResult : List ℚ) (summarize : String → String) (newId : String)
    (now : Int) (req : MemoryStoreRequest) (st : MemState) : MemState × MemoryEntry :=
  let memory : MemoryEntry :=
    { id := newId, type := req.type, content := req.content,
      summary := if req.auto_summarize && 500 < req.content.length
        then some (summarize req.content) else none,
      importance := req.importance, timestamp := now,
      session_id := req.session_id, agent_id := req.agent_id,
      metadata := req.metadata,
      embedding := if embedResult.isEmpty then none else some embedResult }
  let sessions :=
    match req.session_id with
    | none => st.sessions
    | some sid =>
      if (sid != "") && st.sessions.any (fun s => s.id == sid) then
        st.sessions.map fun s =>
          if s.id == sid then
            { s with message_count := s.message_count + 1, last_active_at := now }
          else s
      else st.sessions
  ({ memories := st.memories ++ [memory], sessions := sessions }, memory)

/-! ### memory.py — consolidation (`consolidate_memories`) -/

/-- The candidate predicate of `consolidate_memories`: session-kind, passing
the optional session filter, strictly older than the cutoff. -/
def isCandidate (req : ConsolidationRequest) (cutoff : Int) (m : MemoryEntry) : Bool :=
  m.type == "session" && optStrGiven req.session_id m.session_id &&
    decide (m.timestamp < cutoff)

/-- The episodic entry `consolidate_memories` creates for a promoted
candidate: same content, importance, timestamp, session id, agent id and
embedding; summary reused when truthy, else synthesized; metadata is the
original metadata with a `"promoted_from"` tag holding the origin id. -/
def promoteEntry (summarize : String → String) (newId : String) (m : MemoryEntry) :
    MemoryEntry :=
  { id := newId, type := "episodic", content := m.content,
    summary := some (match m.summary with
      | some s => if s = "" then summarize m.content else s
      | none => summarize m.content),
    importance := m.importance, timestamp := m.timestamp,
    session_id := m.session_id, agent_id := m.agent_id,
    metadata := ("promoted_from", m.id) :: m.metadata,
    embedding := m.embedding }

/-- The per-candidate loop of `consolidate_memories`: for each candidate in
order, promote it (consuming the next fresh id) when `importance ≥
importance_threshold`, and count one deletion unconditionally. Returns
(created episodic entries, promoted count, deleted count). -/
def consolidateGo (summarize : String → String) (fresh : Nat → String) (threshold : ℚ) :
    List MemoryEntry → Nat → List MemoryEntry × Nat × Nat
  | [], _ => ([], 0, 0)
  | c :: cs, k =>
    if threshold ≤ c.importance then
      let r := consolidateGo summarize fresh threshold cs (k + 1)
      (promoteEntry summarize (fresh k) c :: r.1, r.2.1 + 1, r.2.2 + 1)
    else
      let r := consolidateGo summarize fresh threshold cs k
      (r.1, r.2.1, r.2.2 + 1)

/-- The report and resulting store of one `consolidate_memories` run. -/
structure ConsolidateResult where
  store : List MemoryEntry
  candidates_found : Nat
  promoted_to_episodic : Nat
  deleted : Nat
deriving DecidableEq

/-- Endpoint `consolidate_memories`: collect candidates (session-kind, optionally
session-filtered, older than `now - max_age_hours`), promote each candidate
with `importance ≥ importance_threshold` to a fresh-id episodic copy, and
delete every candidate. The resulting `_memories` dict holds the surviving
originals (in order) followed by the created entries. -/
def consolidate (summarize : String → String) (fresh : Nat → String)
    (req : ConsolidationRequest) (now : Int) (store : List MemoryEntry) :
    ConsolidateResult :=
  let cutoff := now - req.max_age_hours
  let candidates := store.filter (isCandidate req cutoff)
  let r := consolidateGo summarize fresh req.importance_threshold candidates 0
  { store := store.filter (fun m => !isCandidate req cutoff m) ++ r.1,
    candidates_found := candidates.length,
    promoted_to_episodic := r.2.1,
    deleted := r.2.2 }

/-! ### memory.py — context assembly (`build_context`) -/

/-- Assignment `text = memory.summary or memory.content`: the summary when truthy. -/
def memText (m : MemoryEntry) : String :=
  match m.summary with
  | some s => if s = "" then m.content else s
  | none => m.content

/-- One context line: `f"[{memory.type.upper()}] {text}"`. -/
def memPart (m : MemoryEntry) : String :=
  "[" ++ strUpper m.type ++ "] " ++ memText m

/-- The accumulation loop of `build_context`: break before any memory whose
text would push the running count past `max_chars`; only `len(text)` is
counted — not the `[KIND]` label, not the join separators. Returns the
accepted parts and the final `total_chars`. -/
def memAssembleGo (maxChars : Nat) : List MemoryEntry → Nat → List String × Nat
  | [], total => ([], total)
  | m :: rest, total =>
    if maxChars < total + (memText m).length then ([], total)
    else
      let prev := memAssembleGo maxChars rest (total + (memText m).length)
      (memPart m :: prev.1, prev.2)

/-- The `context` field `build_context` returns: accepted parts joined by
`"\n\n"`, with `max_chars = max_tokens * 4` (the endpoint places no lower
bound on `max_tokens`). -/
def memoryContextText (maxTokens : Nat) (results : List MemoryEntry) : String :=
  String.intercalate "\n\n" (memAssembleGo (maxTokens * 4) results 0).1

/-! ### Concrete instances used by counterexamples and witnesses -/

/-- A four-character episodic memory entry with no summary. -/
def memAbcd : MemoryEntry :=
  { id := "m1", type := "episodic", content := "abcd", summary := none, importance := 1,
    timestamp := 0, session_id := none, agent_id := none, metadata := [], embedding := none }

/-- A search request whose only active filter is a one-hour time window. -/
def reqTimeWindow : MemorySearchRequest :=
  { query := "abcd", types := none, session_id := none, agent_id := none,
    limit := 10, min_importance := 0, time_range_hours := some 1 }

/-- A search request with no active filter. -/
def reqNoFilters : MemorySearchRequest :=
  { query := "zero", types := none, session_id := none, agent_id := none,
    limit := 10, min_importance := 0, time_range_hours := none }

/-- A memory entry whose stored embedding is the zero vector: truthy for the
source's guard, undefined for cosine similarity. -/
def zeroVecMem : MemoryEntry :=
  { id := "z1", type := "episodic", content := "zero", summary := none, importance := 1,
    timestamp := 0, session_id := none, agent_id := none, metadata := [],
    embedding := some [0, 0] }

/-- An old session-kind memory entry of maximal importance. -/
def consMemW : MemoryEntry :=
  { id := "a", type := "session", content := "c", summary := some "s", importance := 1,
    timestamp := 0, session_id := none, agent_id := none, metadata := [], embedding := none }

/-- A consolidation request with a one-hour cutoff and threshold 1. -/
def consReqW : ConsolidationRequest :=
  { session_id := none, max_age_hours := 1, importance_threshold := 1 }

/-- A store request referencing session id "s1". -/
def storeReqW : MemoryStoreRequest :=
  { content := "c", type := "episodic", importance := 1, session_id := some "s1",
    agent_id := none, metadata := [], auto_summarize := false }

/-! ### Helper lemmas -/

/-- Membership in the fallback result accumulator forces the threshold test
that guarded the append. -/
theorem fallbackResults_score {sim : List ℚ → ℚ} {threshold : ℚ} {chunks : List StoredChunk}
    {r : SearchResult} (h : r ∈ fallbackResults sim threshold chunks) :
    threshold ≤ r.score := by
  obtain ⟨c, _, hfc⟩ := List.mem_filterMap.1 h
  rcases hco : c.embedding with _ | e <;> rw [hco] at hfc
  · exact absurd hfc (by simp)
  · by_cases h1 : e.isEmpty
    · simp [h1] at hfc
    · by_cases h2 : threshold ≤ sim e
      · simp only [h1, if_false, h2, if_true, Bool.false_eq_true, Option.some.injEq] at hfc
        rw [← hfc]
        exact h2
      · simp [h1, h2] at hfc

/-- Budget loop of `get_rag_context`: starting under budget, the accepted
parts are a whole-result prefix whose content lengths still fit under the
budget. -/
theorem ragAssembleGo_prefix (inc : Bool) (maxChars : Nat) :
    ∀ (results : List SearchResult) (total : Nat), total ≤ maxChars →
      ∃ n, (ragAssembleGo inc maxChars results total).1 = (results.take n).map (ragFmt inc) ∧
        total + ((results.take n).map (fun r => r.content.length)).sum ≤ maxChars := by
  intro results
  induction results with
  | nil => intro total h; exact ⟨0, by simp [ragAssembleGo], by simpa⟩
  | cons r rest ih =>
    intro total h
    by_cases hb : maxChars < total + r.content.length
    · exact ⟨0, by simp [ragAssembleGo, hb], by simpa⟩
    · obtain ⟨n, h1, h2⟩ := ih (total + r.content.length) (by omega)
      refine ⟨n + 1, ?_, ?_⟩
      · simpa [ragAssembleGo, hb] using h1
      · simp only [List.take_succ_cons, List.map_cons, List.sum_cons]
        omega

/-- Budget loop of `build_context`: starting under budget, the accepted
parts are a whole-memory prefix whose text lengths still fit under the
budget. -/
theorem memAssembleGo_prefix (maxChars : Nat) :
    ∀ (results : List MemoryEntry) (total : Nat), total ≤ maxChars →
      ∃ n, (memAssembleGo maxChars results total).1 = (results.take n).map memPart ∧
        total + ((results.take n).map (fun m => (memText m).length)).sum ≤ maxChars := by
  intro results
  induction results with
  | nil => intro total h; exact ⟨0, by simp [memAssembleGo], by simpa⟩
  | cons m rest ih =>
    intro total h
    by_cases hb : maxChars < total + (memText m).length
    · exact ⟨0, by simp [memAssembleGo, hb], by simpa⟩
    · obtain ⟨n, h1, h2⟩ := ih (total + (memText m).length) (by omega)
      refine ⟨n + 1, ?_, ?_⟩
      · simpa [memAssembleGo, hb] using h1
      · simp only [List.take_succ_cons, List.map_cons, List.sum_cons]
        omega

/-- Non-positive step: once `start ≤ 0` and `size ≤ overlap`, the
`chunk_fixed` loop never exits on a non-empty text, whatever the fuel. -/
theorem chunkFixedGo_nonpos_step (size overlap : Int) (text : String)
    (hstep : size ≤ overlap) (htext : text.data.length ≠ 0) :
    ∀ (fuel : Nat) (start : Int) (acc : List String), start ≤ 0 →
      chunkFixedGo size overlap text fuel start acc = none := by
  intro fuel
  induction fuel with
  | zero => intro start acc _; rfl
  | succ n ih =>
    intro start acc hs
    have hlen : (0 : Int) < text.data.length := by
      have := Nat.pos_of_ne_zero htext
      omega
    rw [chunkFixedGo, if_pos (by omega)]
    exact ih _ _ (by omega)

/-! ### C4 — chunk ids across re-ingestion -/

/-- C4 (counterexample): two ingestions of the same one-chunk document that
drew different uuids assign different chunk ids at ordinal 0, so
re-ingestion does not reproduce chunk ids. -/
theorem reingest_chunk_ids_differ_cex :
    uploadAssignChunkIds "0123456789ab" ["same text"]
      ≠ uploadAssignChunkIds "0123456789ac" ["same text"] := by
  decide

/-- C4 (amended): a chunk id is a deterministic function of the document id
and the ordinal alone — it coincides across two ingestions exactly when the
two ingestions were assigned the same (uuid-derived) document id; since
`upload_document` mints a fresh uuid per call, re-ingestion reproduces the
ids only if the uuid draw repeats. -/
theorem chunk_id_deterministic_in_doc_id (h1 h2 : String) (i : Nat) :
    chunkIdOf (docIdOf h1) i = chunkIdOf (docIdOf h2) i ↔ h1 = h2 := by
  constructor
  · intro h
    have hd : ("chunk_" ++ ("doc_" ++ h1) ++ "_" ++ toString i).data
        = ("chunk_" ++ ("doc_" ++ h2) ++ "_" ++ toString i).data := by
      simpa [chunkIdOf, docIdOf] using congrArg String.data h
    simp only [String.data_append] at hd
    have h3 := List.append_cancel_left
      (List.append_cancel_right (List.append_cancel_right hd))
    exact congrArg String.mk (List.append_cancel_left h3)
  · intro h
    rw [h]

/-! ### C2 — context budget -/

/-- C2 (counterexample): with `max_tokens = 1` (the memory context endpoint
does not bound the parameter) and one four-character memory, the returned
context string is `"[EPISODIC] abcd"`, of length 15 > 4: the returned
text's length exceeds `max_tokens * 4` because the `[KIND]` label is not
counted by the budget. -/
theorem context_budget_exceeded_cex :
    ¬ (memoryContextText 1 [memAbcd]).length ≤ 1 * 4 := by decide

/-- C2 (amended): in both assemblers the accepted results form a
whole-result prefix of the ranked list, and the accumulated count of result
body characters (the `content` / `summary-or-content` text, exclusive of
the source/kind labels and the join separators) never exceeds
`max_tokens * 4`; the full returned string can exceed the bound only by
label and separator overhead. -/
theorem context_budget_counts_content (inc : Bool) (maxTokens : Nat)
    (results : List SearchResult) (memories : List MemoryEntry) :
    (∃ n, (ragAssembleGo inc (maxTokens * 4) results 0).1 = (results.take n).map (ragFmt inc) ∧
      ((results.take n).map (fun r => r.content.length)).sum ≤ maxTokens * 4) ∧
    (∃ n, (memAssembleGo (maxTokens * 4) memories 0).1 = (memories.take n).map memPart ∧
      ((memories.take n).map (fun m => (memText m).length)).sum ≤ maxTokens * 4) := by
  constructor
  · obtain ⟨n, a, b⟩ := ragAssembleGo_prefix inc (maxTokens * 4) results 0 (Nat.zero_le _)
    exact ⟨n, a, by simpa using b⟩
  · obtain ⟨n, a, b⟩ := memAssembleGo_prefix (maxTokens * 4) memories 0 (Nat.zero_le _)
    exact ⟨n, a, by simpa using b⟩

/-! ### C3 — knowledge-base search on embedding failure -/

/-- C3 (counterexample): a knowledge-base semantic search whose query
embedding request hits an HTTP error surfaces a hard 503 error to the
caller instead of returning an empty result set. -/
theorem embedding_http_error_cex :
    semanticSearch .httpError (fun _ _ => 0) none [] 0 5 [] = .error 503 := rfl

/-- C3 (amended): when the embedding call succeeds but yields an empty
vector, knowledge-base semantic search returns the empty result set without
error; when the embedding HTTP request itself fails (unreachable or timed
out), `generate_embedding` raises `HTTPException(503)` and the search
surfaces that hard error. (The memory router, by contrast, swallows the
failure and falls back to keyword search.) -/
theorem embedding_failure_behavior (sim : List ℚ → List ℚ → ℚ)
    (collection : Option String) (qdrantResults : List SearchResult)
    (threshold : ℚ) (limit : Nat) (chunks : List StoredChunk) :
    semanticSearch .httpError sim collection qdrantResults threshold limit chunks
        = .error 503 ∧
    semanticSearch (.ok []) sim collection qdrantResults threshold limit chunks
        = .ok [] :=
  ⟨rfl, rfl⟩

/-! ### C5 — chunking parameter validation and forward progress -/

/-- C5 (code evaluated at the failing input): `ChunkingStrategy` validation
accepts `chunk_size = 100, chunk_overlap = 150` (within `ge=100/le=4096`
and `ge=0/le=256`) even though `overlap ≥ size`, and on any non-empty text
(here `"xx"`) the `chunk_fixed` window step `size - overlap = -50` makes
the loop run forever: no amount of fuel finishes it. -/
theorem overlap_ge_size_accepted_loops :
    chunkParamsValid 100 150 = true ∧
    ∀ fuel : Nat, chunkFixed 100 150 "xx" fuel = none := by
  refine ⟨by decide, fun fuel => ?_⟩
  exact chunkFixedGo_nonpos_step 100 150 "xx" (by norm_num) (by decide) fuel 0 [] le_rfl

/-! ### C7 — zero-vector handling in cosine scoring -/

/-- C7 (code evaluated at the failing input): the only guard before cosine
scoring is Python truthiness of the stored embedding, which the zero vector
`[0, 0]` passes, while its squared norm — hence the cosine denominator
`norm(a) * norm(b)` — is zero; moreover a zero-embedding entry passes the
memory search filters and is placed in the scored candidate list (for every
similarity function), rather than being excluded. -/
theorem zero_vector_reaches_scoring :
    embGiven (some [(0 : ℚ), 0]) = true ∧ normSq [(0 : ℚ), 0] = 0 ∧
    ∀ sim : List ℚ → ℚ,
      (zeroVecMem, sim [(0 : ℚ), 0]) ∈ semanticPairs sim reqNoFilters 0 [zeroVecMem] := by
  refine ⟨rfl, by simp [normSq, dotQ], fun sim => ?_⟩
  have hf : memMatchesFilters reqNoFilters 0 zeroVecMem = true := by decide
  have he : zeroVecMem.embedding = some [(0 : ℚ), 0] := rfl
  simp [semanticPairs, hf, he]

/-! ### C6 — fallback search: threshold, order, truncation -/

/-- C6: in the no-collection fallback semantic search every returned result
scores at least `score_threshold`, the results come in non-increasing score
order, and at most `limit` results are returned. -/
theorem fallback_scan_threshold_order (sim : List ℚ → ℚ) (threshold : ℚ) (limit : Nat)
    (chunks : List StoredChunk) :
    (∀ r ∈ fallbackScan sim threshold limit chunks, threshold ≤ r.score) ∧
    (fallbackScan sim threshold limit chunks).Pairwise (fun a b => b.score ≤ a.score) ∧
    (fallbackScan sim threshold limit chunks).length ≤ limit := by
  haveI : IsTotal SearchResult (fun a b => b.score ≤ a.score) := ⟨fun _ _ => le_total _ _⟩
  haveI : IsTrans SearchResult (fun a b => b.score ≤ a.score) :=
    ⟨fun _ _ _ h1 h2 => le_trans h2 h1⟩
  refine ⟨?_, ?_, ?_⟩
  · intro r hr
    rw [fallbackScan] at hr
    have h1 := List.mem_of_mem_take hr
    rw [List.mem_insertionSort] at h1
    exact fallbackResults_score h1
  · have hs := List.sorted_insertionSort (fun a b => b.score ≤ a.score)
      (fallbackResults sim threshold chunks)
    exact hs.sublist (List.take_sublist _ _)
  · rw [fallbackScan]
    exact List.length_take_le _ _

/-! ### C8 — keyword fallback filters and ranking -/

/-- Membership in the keyword candidate list forces the keyword filter, the
match count and its positivity. -/
theorem kwPairs_mem {req : MemorySearchRequest} {mems : List MemoryEntry}
    {p : MemoryEntry × Nat} (h : p ∈ kwPairs req mems) :
    p.1 ∈ mems ∧ kwFilterOk req p.1 = true ∧
      p.2 = countMatches (pySplitWords (strLower req.query)) (strLower p.1.content) ∧
      0 < p.2 := by
  obtain ⟨m, hm, hfm⟩ := List.mem_filterMap.1 h
  by_cases hf : kwFilterOk req m
  · by_cases h1 : 0 < countMatches (pySplitWords (strLower req.query)) (strLower m.content)
    · simp only [kwPairs, hf, if_true, h1] at hfm
      cases hfm
      exact ⟨hm, hf, rfl, h1⟩
    · simp [kwPairs, hf, h1] at hfm
  · simp [kwPairs, hf] at hfm

/-- C8 (counterexample): the two search modes do not share one candidate
filter predicate. With a one-hour time window requested and an entry five
days stale (timestamp 0 at now = 100), the semantic-mode filter rejects the
entry, yet `keyword_search` — which never consults
`request.time_range_hours` — returns it. -/
theorem keyword_time_filter_missing_cex :
    keywordSearch reqTimeWindow [memAbcd] = [memAbcd] ∧
    memMatchesFilters reqTimeWindow 100 memAbcd = false := by
  constructor <;> decide

/-- C8 (amended): the keyword fallback applies the semantic filters minus
the time window — the semantic predicate is exactly the keyword predicate
conjoined with the time test — and keyword results are drawn from the
store, pass that filter, have at least one keyword match, come in
non-increasing `match_count * importance` order, and number at most
`limit`. -/
theorem keyword_mode_filters_and_ranking (req : MemorySearchRequest) (now : Int)
    (mems : List MemoryEntry) :
    (∀ m : MemoryEntry, memMatchesFilters req now m
        = (kwFilterOk req m && timeOk req.time_range_hours now m.timestamp)) ∧
    (∀ m ∈ keywordSearch req mems,
        m ∈ mems ∧ kwFilterOk req m = true ∧
          0 < countMatches (pySplitWords (strLower req.query)) (strLower m.content)) ∧
    (keywordSearch req mems).Pairwise
      (fun a b => kwKey (pySplitWords (strLower req.query)) b
        ≤ kwKey (pySplitWords (strLower req.query)) a) ∧
    (keywordSearch req mems).length ≤ req.limit := by
  haveI : IsTotal (MemoryEntry × Nat)
      (fun x y => (y.2 : ℚ) * y.1.importance ≤ (x.2 : ℚ) * x.1.importance) :=
    ⟨fun _ _ => le_total _ _⟩
  haveI : IsTrans (MemoryEntry × Nat)
      (fun x y => (y.2 : ℚ) * y.1.importance ≤ (x.2 : ℚ) * x.1.importance) :=
    ⟨fun _ _ _ h1 h2 => le_trans h2 h1⟩
  refine ⟨?_, ?_, ?_, ?_⟩
  · intro m
    simp [memMatchesFilters, kwFilterOk, Bool.and_assoc]
  · intro m hm
    rw [keywordSearch] at hm
    obtain ⟨p, hp, hp1⟩ := List.mem_map.1 hm
    have h1 := List.mem_of_mem_take hp
    rw [List.mem_insertionSort] at h1
    obtain ⟨ha, hb, hc, hd⟩ := kwPairs_mem h1
    rw [← hp1]
    exact ⟨ha, hb, hc ▸ hd⟩
  · have hs := List.sorted_insertionSort
      (fun (x y : MemoryEntry × Nat) => (y.2 : ℚ) * y.1.importance ≤ (x.2 : ℚ) * x.1.importance)
      (kwPairs req mems)
    have ht := hs.sublist (List.take_sublist req.limit _)
    rw [keywordSearch, List.pairwise_map]
    refine ht.imp_of_mem ?_
    intro p q hp hq hr
    have hp2 := kwPairs_mem ((List.mem_insertionSort _).1 (List.mem_of_mem_take hp))
    have hq2 := kwPairs_mem ((List.mem_insertionSort _).1 (List.mem_of_mem_take hq))
    simpa [kwKey, ← hp2.2.2.1, ← hq2.2.2.1] using hr
  · rw [keywordSearch]
    simp only [List.length_map]
    exact List.length_take_le req.limit _

/-! ### C9 — semantic ranking policy -/

/-- Membership in the semantic candidate list forces the filters, a truthy
embedding, and the recorded similarity. -/
theorem semanticPairs_mem {sim : List ℚ → ℚ} {req : MemorySearchRequest} {now : Int}
    {mems : List MemoryEntry} {p : MemoryEntry × ℚ}
    (h : p ∈ semanticPairs sim req now mems) :
    p.1 ∈ mems ∧ memMatchesFilters req now p.1 = true ∧
      ∃ e, p.1.embedding = some e ∧ e ≠ [] ∧ p.2 = sim e := by
  obtain ⟨m, hm, hfm⟩ := List.mem_filterMap.1 h
  by_cases hf : memMatchesFilters req now m
  · rcases hco : m.embedding with _ | e
    · simp [semanticPairs, hf, hco] at hfm
    · by_cases h1 : e.isEmpty
      · simp [semanticPairs, hf, hco, h1] at hfm
      · simp only [semanticPairs, hf, if_true, hco, h1, Bool.false_eq_true] at hfm
        rw [if_neg (by simp [h1])] at hfm
        cases hfm
        exact ⟨hm, hf, e, hco, by simpa [List.isEmpty_iff] using h1, rfl⟩
  · simp [semanticPairs, hf] at hfm

/-- Blended key of a scored pair, restated through `blendScore` for the
entry it carries. -/
theorem semanticPairs_key {sim : List ℚ → ℚ} {req : MemorySearchRequest} {now : Int}
    {mems : List MemoryEntry} {p : MemoryEntry × ℚ}
    (h : p ∈ semanticPairs sim req now mems) :
    p.2 * (7 / 10 + 3 / 10 * p.1.importance) = blendScore sim p.1 := by
  obtain ⟨-, -, e, he, -, hs⟩ := semanticPairs_mem h
  rw [blendScore, he, hs, Option.getD_some]

/-- C9: in semantic mode (non-empty query embedding) every returned entry
comes from the store, passes the filters and has a truthy embedding (so
embedding-less candidates are excluded, not scored as zero); the entries
come in non-increasing order of `similarity * (0.7 + 0.3 * importance)`;
and at most `limit` entries are returned. -/
theorem semantic_rank_policy (sim : List ℚ → ℚ) (req : MemorySearchRequest) (now : Int)
    (queryEmbedding : List ℚ) (mems : List MemoryEntry)
    (hq : queryEmbedding ≠ []) :
    (∀ m ∈ searchMemories sim req now queryEmbedding mems,
        m ∈ mems ∧ memMatchesFilters req now m = true ∧
          ∃ e, m.embedding = some e ∧ e ≠ []) ∧
    (searchMemories sim req now queryEmbedding mems).Pairwise
      (fun a b => blendScore sim b ≤ blendScore sim a) ∧
    (searchMemories sim req now queryEmbedding mems).length ≤ req.limit := by
  haveI : IsTotal (MemoryEntry × ℚ)
      (fun x y => y.2 * (7 / 10 + 3 / 10 * y.1.importance)
        ≤ x.2 * (7 / 10 + 3 / 10 * x.1.importance)) :=
    ⟨fun _ _ => le_total _ _⟩
  haveI : IsTrans (MemoryEntry × ℚ)
      (fun x y => y.2 * (7 / 10 + 3 / 10 * y.1.importance)
        ≤ x.2 * (7 / 10 + 3 / 10 * x.1.importance)) :=
    ⟨fun _ _ _ h1 h2 => le_trans h2 h1⟩
  have hq2 : queryEmbedding.isEmpty = false := by
    cases queryEmbedding
    · exact absurd rfl hq
    · rfl
  rw [searchMemories, hq2]
  simp only [Bool.false_eq_true, if_false]
  refine ⟨?_, ?_, ?_⟩
  · intro m hm
    rw [semanticRank] at hm
    obtain ⟨p, hp, hp1⟩ := List.mem_map.1 hm
    have h1 := List.mem_of_mem_take hp
    rw [List.mem_insertionSort] at h1
    obtain ⟨ha, hb, e, he, hne, -⟩ := semanticPairs_mem h1
    rw [← hp1]
    exact ⟨ha, hb, e, he, hne⟩
  · have hs := List.sorted_insertionSort
      (fun (x y : MemoryEntry × ℚ) => y.2 * (7 / 10 + 3 / 10 * y.1.importance)
        ≤ x.2 * (7 / 10 + 3 / 10 * x.1.importance))
      (semanticPairs sim req now mems)
    have ht := hs.sublist (List.take_sublist req.limit _)
    rw [semanticRank, List.pairwise_map]
    refine ht.imp_of_mem ?_
    intro p q hp hq1 hr
    have hp2 := semanticPairs_key ((List.mem_insertionSort _).1 (List.mem_of_mem_take hp))
    have hq2 := semanticPairs_key ((List.mem_insertionSort _).1 (List.mem_of_mem_take hq1))
    rw [← hp2, ← hq2]
    exact hr
  · rw [semanticRank]
    simp only [List.length_map]
    exact List.length_take_le req.limit _

/-- C9 (witness): the semantic-mode guarantees instantiated at the query
embedding `[1]`, a constant similarity and an empty store. -/
theorem semantic_rank_policy_witness :
    (∀ m ∈ searchMemories (fun _ => (1 : ℚ)) reqNoFilters 0 [1] [],
        m ∈ ([] : List MemoryEntry) ∧ memMatchesFilters reqNoFilters 0 m = true ∧
          ∃ e, m.embedding = some e ∧ e ≠ []) ∧
    (searchMemories (fun _ => (1 : ℚ)) reqNoFilters 0 [1] []).Pairwise
      (fun a b => blendScore (fun _ => (1 : ℚ)) b ≤ blendScore (fun _ => (1 : ℚ)) a) ∧
    (searchMemories (fun _ => (1 : ℚ)) reqNoFilters 0 [1] []).length ≤ reqNoFilters.limit :=
  semantic_rank_policy (fun _ => (1 : ℚ)) reqNoFilters 0 [1] [] (by decide)

/-! ### C10 — store_memory session frame -/

/-- C10: storing a memory whose `session_id` names no existing session
succeeds — the entry is created carrying that session id and appended to
the memory store, no error is raised (the endpoint is total and performs no
existence check), and the session store is left unchanged; moreover any
change to the session store requires a session with the referenced id to
exist. -/
theorem store_memory_session_frame (embedResult : List ℚ) (summarize : String → String)
    (newId : String) (now : Int) (req : MemoryStoreRequest) (st : MemState) (sid : String)
    (hsid : req.session_id = some sid)
    (habs : ∀ s ∈ st.sessions, s.id ≠ sid) :
    (storeMemory embedResult summarize newId now req st).1.sessions = st.sessions ∧
    (storeMemory embedResult summarize newId now req st).2.session_id = some sid ∧
    (storeMemory embedResult summarize newId now req st).1.memories
      = st.memories ++ [(storeMemory embedResult summarize newId now req st).2] ∧
    ∀ st2 : MemState,
      (storeMemory embedResult summarize newId now req st2).1.sessions ≠ st2.sessions →
        ∃ s ∈ st2.sessions, s.id = sid := by
  have hany : st.sessions.any (fun s => s.id == sid) = false := by
    rw [List.any_eq_false]
    intro s hs
    simpa using habs s hs
  refine ⟨?_, ?_, ?_, ?_⟩
  · simp [storeMemory, hsid, hany]
  · simp [storeMemory, hsid]
  · simp [storeMemory]
  · intro st2 hne
    by_cases hc : ((sid != "") && st2.sessions.any (fun s => s.id == sid)) = true
    · rw [Bool.and_eq_true] at hc
      rw [List.any_eq_true] at hc
      obtain ⟨s, hs, he⟩ := hc.2
      exact ⟨s, hs, by simpa using he⟩
    · exact absurd (by simp [storeMemory, hsid, hc]) hne

/-- C10 (witness): the frame guarantees instantiated at an empty state and
a request referencing the unknown session id "s1". -/
theorem store_memory_session_frame_witness :
    (storeMemory [] (fun _ => "") "m9" 5 storeReqW ⟨[], []⟩).1.sessions
        = (MemState.mk [] []).sessions ∧
    (storeMemory [] (fun _ => "") "m9" 5 storeReqW ⟨[], []⟩).2.session_id = some "s1" ∧
    (storeMemory [] (fun _ => "") "m9" 5 storeReqW ⟨[], []⟩).1.memories
      = (MemState.mk [] []).memories
        ++ [(storeMemory [] (fun _ => "") "m9" 5 storeReqW ⟨[], []⟩).2] ∧
    ∀ st2 : MemState,
      (storeMemory [] (fun _ => "") "m9" 5 storeReqW st2).1.sessions ≠ st2.sessions →
        ∃ s ∈ st2.sessions, s.id = "s1" :=
  store_memory_session_frame [] (fun _ => "") "m9" 5 storeReqW ⟨[], []⟩ "s1" rfl
    (fun s hs => absurd hs (List.not_mem_nil s))

/-! ### C1 — consolidation partition -/

/-- Entries created by the consolidation loop are promotions of
high-importance candidates. -/
theorem consolidateGo_created_mem (summarize : String → String) (fresh : Nat → String)
    (threshold : ℚ) :
    ∀ (cands : List MemoryEntry) (k : Nat) (m : MemoryEntry),
      m ∈ (consolidateGo summarize fresh threshold cands k).1 →
      ∃ c ∈ cands, threshold ≤ c.importance ∧
        ∃ j, m = promoteEntry summarize (fresh j) c := by
  intro cands
  induction cands with
  | nil => intro k m h; simp [consolidateGo] at h
  | cons c cs ih =>
    intro k m h
    by_cases hc : threshold ≤ c.importance
    · simp only [consolidateGo, hc, if_true, List.mem_cons] at h
      rcases h with h | h
      · exact ⟨c, List.mem_cons_self c cs, hc, k, h⟩
      · obtain ⟨c2, hc2, ht2, j, hj⟩ := ih (k + 1) m h
        exact ⟨c2, List.mem_cons_of_mem c hc2, ht2, j, hj⟩
    · simp only [consolidateGo, hc, if_false] at h
      obtain ⟨c2, hc2, ht2, j, hj⟩ := ih k m h
      exact ⟨c2, List.mem_cons_of_mem c hc2, ht2, j, hj⟩

/-- Every high-importance candidate is promoted by the loop. -/
theorem consolidateGo_mem_created (summarize : String → String) (fresh : Nat → String)
    (threshold : ℚ) :
    ∀ (cands : List MemoryEntry) (k : Nat) (c : MemoryEntry), c ∈ cands →
      threshold ≤ c.importance →
      ∃ j, promoteEntry summarize (fresh j) c
        ∈ (consolidateGo summarize fresh threshold cands k).1 := by
  intro cands
  induction cands with
  | nil => intro k c h; cases h
  | cons a cs ih =>
    intro k c h ht
    rcases List.mem_cons.1 h with rfl | h2
    · exact ⟨k, by simp [consolidateGo, ht]⟩
    · by_cases ha : threshold ≤ a.importance
      · obtain ⟨j, hj⟩ := ih (k + 1) c h2 ht
        refine ⟨j, ?_⟩
        simp only [consolidateGo, ha, if_true, List.mem_cons]
        exact Or.inr hj
      · obtain ⟨j, hj⟩ := ih k c h2 ht
        refine ⟨j, ?_⟩
        simpa only [consolidateGo, ha, if_false] using hj

/-- The loop counts one deletion per candidate. -/
theorem consolidateGo_deleted (summarize : String → String) (fresh : Nat → String)
    (threshold : ℚ) :
    ∀ (cands : List MemoryEntry) (k : Nat),
      (consolidateGo summarize fresh threshold cands k).2.2 = cands.length := by
  intro cands
  induction cands with
  | nil => intro k; rfl
  | cons a cs ih =>
    intro k
    by_cases ha : threshold ≤ a.importance <;> simp [consolidateGo, ha, ih]

/-- C1: for an id-unique store and a supply of genuinely fresh ids, every
candidate (session-kind, matching the session filter, older than the
cutoff) is absent from the store after consolidation; every candidate at or
above the importance threshold has a new episodic entry with the same
content, timestamp, session id, agent id and embedding, whose metadata tags
the originating id; every candidate below the threshold has no
newly-created corresponding entry (anything tagged with its id already
existed); and the reported deleted count equals the candidates-found
count. -/
theorem consolidate_partition (summarize : String → String) (fresh : Nat → String)
    (req : ConsolidationRequest) (now : Int) (store : List MemoryEntry)
    (hnd : (store.map MemoryEntry.id).Nodup)
    (hfresh : ∀ k, fresh k ∉ store.map MemoryEntry.id) :
    (∀ c ∈ store, isCandidate req (now - req.max_age_hours) c = true →
      (∀ m ∈ (consolidate summarize fresh req now store).store, m.id ≠ c.id) ∧
      (req.importance_threshold ≤ c.importance →
        ∃ m ∈ (consolidate summarize fresh req now store).store,
          m.type = "episodic" ∧ m.content = c.content ∧ m.timestamp = c.timestamp ∧
          m.session_id = c.session_id ∧ m.agent_id = c.agent_id ∧
          m.embedding = c.embedding ∧ m.metadata.lookup "promoted_from" = some c.id) ∧
      (c.importance < req.importance_threshold →
        ∀ m ∈ (consolidate summarize fresh req now store).store,
          m.metadata.lookup "promoted_from" = some c.id → m ∈ store)) ∧
    (consolidate summarize fresh req now store).deleted
      = (consolidate summarize fresh req now store).candidates_found := by
  have hinj := List.inj_on_of_nodup_map hnd
  have hmem : ∀ m ∈ (consolidate summarize fresh req now store).store,
      (m ∈ store ∧ isCandidate req (now - req.max_age_hours) m = false) ∨
      ∃ c ∈ store, isCandidate req (now - req.max_age_hours) c = true ∧
        req.importance_threshold ≤ c.importance ∧
        ∃ j, m = promoteEntry summarize (fresh j) c := by
    intro m hm
    simp only [consolidate] at hm
    rcases List.mem_append.1 hm with h | h
    · left
      have h2 := List.mem_filter.1 h
      exact ⟨h2.1, by simpa using h2.2⟩
    · right
      obtain ⟨c, hc, ht, j, hj⟩ := consolidateGo_created_mem summarize fresh _ _ 0 m h
      have hc2 := List.mem_filter.1 hc
      exact ⟨c, hc2.1, hc2.2, ht, j, hj⟩
  refine ⟨?_, ?_⟩
  · intro c hc hcand
    refine ⟨?_, ?_, ?_⟩
    · intro m hm he
      rcases hmem m hm with ⟨hm1, hm2⟩ | ⟨c2, hc2, _, _, j, rfl⟩
      · rw [hinj hm1 hc he] at hm2
        rw [hcand] at hm2
        cases hm2
      · have hfj : fresh j = c.id := he
        exact hfresh j (hfj ▸ List.mem_map_of_mem MemoryEntry.id hc)
    · intro ht
      have hcf : c ∈ store.filter (isCandidate req (now - req.max_age_hours)) :=
        List.mem_filter.2 ⟨hc, hcand⟩
      obtain ⟨j, hj⟩ := consolidateGo_mem_created summarize fresh _ _ 0 c hcf ht
      refine ⟨promoteEntry summarize (fresh j) c, ?_, rfl, rfl, rfl, rfl, rfl, rfl, ?_⟩
      · simp only [consolidate]
        exact List.mem_append_right _ hj
      · simp [promoteEntry, List.lookup]
    · intro hlt m hm hlook
      rcases hmem m hm with ⟨hm1, _⟩ | ⟨c2, hc2, _, ht2, j, rfl⟩
      · exact hm1
      · have hid : c2.id = c.id := by
          simpa [promoteEntry, List.lookup] using hlook
        rw [hinj hc2 hc hid] at ht2
        exact absurd ht2 (not_le.2 hlt)
  · simp only [consolidate]
    exact consolidateGo_deleted summarize fresh _ _ 0

/-- C1 (witness): the consolidation partition instantiated at a one-entry
store holding an old, maximal-importance session memory, with threshold 1
and cutoff one hour before now = 10. -/
theorem consolidate_partition_witness :
    (∀ c ∈ [consMemW], isCandidate consReqW (10 - consReqW.max_age_hours) c = true →
      (∀ m ∈ (consolidate (fun _ => "sum") (fun _ => "fresh") consReqW 10 [consMemW]).store,
        m.id ≠ c.id) ∧
      (consReqW.importance_threshold ≤ c.importance →
        ∃ m ∈ (consolidate (fun _ => "sum") (fun _ => "fresh") consReqW 10 [consMemW]).store,
          m.type = "episodic" ∧ m.content = c.content ∧ m.timestamp = c.timestamp ∧
          m.session_id = c.session_id ∧ m.agent_id = c.agent_id ∧
          m.embedding = c.embedding ∧ m.metadata.lookup "promoted_from" = some c.id) ∧
      (c.importance < consReqW.importance_threshold →
        ∀ m ∈ (consolidate (fun _ => "sum") (fun _ => "fresh") consReqW 10 [consMemW]).store,
          m.metadata.lookup "promoted_from" = some c.id → m ∈ [consMemW])) ∧
    (consolidate (fun _ => "sum") (fun _ => "fresh") consReqW 10 [consMemW]).deleted
      = ConsolidateResult.candidates_found
          (consolidate (fun _ => "sum") (fun _ => "fresh") consReqW 10 [consMemW]) := by
  have hfr : ∀ _k : Nat, "fresh" ∉ List.map MemoryEntry.id [consMemW] := fun _ => by decide
  exact consolidate_partition (fun _ => "sum") (fun _ => "fresh") consReqW 10 [consMemW]
    (by decide) hfr
